import Mathlib

/-!
# Audio-Remote-Control-JS: the command scheduler of `AbstractDevice`

A shallow embedding of `src/src/DeviceComms.js` (classes `AbstractDevice` and
`SennheiserDevice`) and a verification of the scheduler's registry and tick properties.
The class `HardwareComms` of `src/src/HardwareComms.js` has the method bodies of
`AbstractDevice` under other method names, with two differences: its `sendMessage` tests
an undeclared `name` where `sendCommand` tests `command`, and its getter of `#running` is
not called `running`.

Modelling conventions.

* A JavaScript string is a `Text`, a list of characters; `""` is `[]`, `+` is `++`.
* A JavaScript number (an interval in ms, a `Date.now()` time stamp) is an `Int`;
  floating point rounding and `NaN` are outside the model.
* A recurring command is the three element array `[command, interval, lastFired]`
  of the source, here the structure `Entry`. The source stores the number `0` in slot 2
  for "not fired yet"; there is no other representation of an unset time.
* The source uses two sets of property names, and no line copies one to the other. The
  constructor, the tick `#runUpdate` and the response handler use the public properties
  `g_wwr_timer_freq`, `g_wwr_req_list`, `g_wwr_req_recur`, `attemptingSend`,
  `udpateRecieved` and `lastSendTime`. The methods `start`, `sendCommand`,
  `addRecurringMessage` and `removeRecurringMessage` use the private fields
  `#lastSendTime`, `#udpateRecieved`, `#attemptingSend`, `#oneOffCommands`,
  `#recurringCommands` and `#minUpdateTime`. Only `#running` is shared: the tick reads it
  through the getter `running`.
* `State` holds what the tick and the response handler read and write. The registry
  methods are functions on the array they work on, a `List Entry`. A statement about one
  method is about the properties that method uses.
* `Device` keeps the two sets of properties apart, with `none` for a property that has not
  been assigned. Statements that follow a value from `start` or `sendCommand` into the
  tick are made on `Device`.
* `clearInterval(x)` applied to a slot-2 time stamp cancels no timer of the scheduler and
  is modelled as doing nothing.
* The XMLHttpRequest `g_wwr_req` is the transport; a tick returns the list of URLs it
  opened and sent.
-/

namespace AudioRemote

/-- A JavaScript string, as its list of characters. -/
abbrev Text := List Char

/-- One element `[command, interval, lastFired]` of the recurring command array. -/
structure Entry where
  /-- Slot 0: the merged command text of the bucket. -/
  text : Text
  /-- Slot 1: the interval of the bucket in ms. -/
  interval : Int
  /-- Slot 2: the time the bucket was last put in a batch; `0` when not fired yet. -/
  lastFired : Int
deriving DecidableEq, Repr

/-- `String.prototype.indexOf(pat)`: the position of the first occurrence of `pat`,
`none` standing for the result `-1`. -/
def indexOf (pat : Text) : Text → Option Nat
  | [] => if pat = [] then some 0 else none
  | c :: s =>
    if pat.isPrefixOf (c :: s) then some 0
    else (indexOf pat s).map (· + 1)

/-- `cmd.replace(pat, "")` for a string pattern: the first occurrence of `pat` is cut out,
and a text without occurrence is returned as it is. -/
def replace (pat : Text) : Text → Text
  | [] => []
  | c :: s =>
    if pat.isPrefixOf (c :: s) then (c :: s).drop pat.length
    else c :: replace pat s

/-- The loop and the push of `addRecurringMessage` (lines 107-125) for a non-empty
command: the first entry with the same interval gets the command put in front of its text
and its slot 2 set to `0`, and the loop breaks; without such an entry
`[command, interval, 0]` is pushed at the end. -/
def addLoop (command : Text) (interval : Int) : List Entry → List Entry
  | [] => [⟨command, interval, 0⟩]
  | e :: rest =>
    if interval = e.interval then ⟨command ++ e.text, e.interval, 0⟩ :: rest
    else e :: addLoop command interval rest

/-- `addRecurringMessage(command, interval)` (lines 102-127) on the recurring array. -/
def addRecurringMessage (command : Text) (interval : Int) (rc : List Entry) : List Entry :=
  if command ≠ [] then addLoop command interval rc else rc

/-- The `for` loop of `removeRecurringMessage` (lines 138-155), started at an index whose
remaining entries are the argument. An entry containing `command` loses the first
occurrence; with text left it stays with slot 2 set to `0`; with no text left it is
spliced out, the entry behind it moves to the current index, and `++i` steps over that
entry without looking at it. -/
def removeLoop (command : Text) : List Entry → List Entry
  | [] => []
  | e :: rest =>
    if indexOf command e.text ≠ none then
      if replace command e.text ≠ [] then
        ⟨replace command e.text, e.interval, 0⟩ :: removeLoop command rest
      else
        match rest with
        | [] => []
        | e' :: rest' => e' :: removeLoop command rest'
    else e :: removeLoop command rest

/-- `removeRecurringMessage(command)` (lines 133-157) on the recurring array. -/
def removeRecurringMessage (command : Text) (rc : List Entry) : List Entry :=
  if command ≠ [] then removeLoop command rc else rc

/-- The same `for` loop with the index `i` and the array of the source kept explicit;
`fuel` bounds the number of iterations. -/
def removeLoopIdx (command : Text) : Nat → Nat → List Entry → List Entry
  | 0, _, rc => rc
  | fuel + 1, i, rc =>
    match rc[i]? with
    | none => rc
    | some e =>
      if indexOf command e.text ≠ none then
        if replace command e.text ≠ [] then
          removeLoopIdx command fuel (i + 1) (rc.set i ⟨replace command e.text, e.interval, 0⟩)
        else
          removeLoopIdx command fuel (i + 1) (rc.eraseIdx i)
      else removeLoopIdx command fuel (i + 1) rc

/-- A call on the recurring registry. -/
inductive RegOp where
  | add (command : Text) (interval : Int)
  | remove (command : Text)
deriving DecidableEq, Repr

/-- The effect of one registry call. -/
def RegOp.apply (rc : List Entry) : RegOp → List Entry
  | .add command interval => addRecurringMessage command interval rc
  | .remove command => removeRecurringMessage command rc

/-- The registry after a sequence of calls, first call first. -/
def applyOps (rc : List Entry) (ops : List RegOp) : List Entry :=
  ops.foldl RegOp.apply rc

/-- The part of the object that the tick `#runUpdate` and the response handler read and
write. -/
structure State where
  /-- The property `g_wwr_req_list`: the one-off queue the tick sends and clears. -/
  oneOffCommands : Text
  /-- The property `g_wwr_req_recur`: the recurring registry the tick loops over. -/
  recurringCommands : List Entry
  /-- The field `#running`, read through the getter `running`. -/
  running : Bool
  /-- The property `attemptingSend`. -/
  attemptingSend : Bool
  /-- The property `udpateRecieved`: a response has come in since the last send. -/
  udpateRecieved : Bool
  /-- The property `lastSendTime`. -/
  lastSendTime : Int
  /-- The property `g_wwr_timer_freq`, set by the constructor. -/
  minUpdateTime : Int
deriving DecidableEq, Repr

/-- The URL `"/_/" + str` that a tick opens with `GET` and sends. -/
def requestUrl (str : Text) : Text := ['/', '_', '/'] ++ str

/-- The condition of the `if` in the recurring loop of `#runUpdate` (line 177):
`lastFired + interval <= time`. -/
def isDue (time : Int) (e : Entry) : Bool :=
  decide (e.lastFired + e.interval ≤ time)

/-- The `for` loop of `#runUpdate` (lines 175-182) over the remaining entries, with the
string `str` assembled so far: a due entry appends its text to `str` and gets `time` in
slot 2. The result is the final `str` and the entries after the loop. -/
def recurLoop (time : Int) : List Entry → Text → Text × List Entry
  | [], str => (str, [])
  | e :: rest, str =>
    if e.lastFired + e.interval ≤ time then
      let r := recurLoop time rest (str ++ e.text)
      (r.1, { e with lastFired := time } :: r.2)
    else
      let r := recurLoop time rest str
      (r.1, e :: r.2)

/-- The guard of `#runUpdate` (line 166). -/
def guard (s : State) (time : Int) : Bool :=
  !s.attemptingSend && s.running && (s.udpateRecieved || decide (time - s.lastSendTime > 3000))

/-- Lines 169-182 of `#runUpdate`: `str` starts as the one-off queue (when that is not
empty, else as `""`) and runs through the recurring loop. The result is the batch `str`
tested in line 184 and the entries after the loop. -/
def assembleBatch (s : State) (time : Int) : Text × List Entry :=
  recurLoop time s.recurringCommands (if s.oneOffCommands ≠ [] then s.oneOffCommands else [])

/-- The body of the `if` of `#runUpdate` (lines 168-191): the state after it and the URLs
opened and sent. -/
def tickBody (s : State) (time : Int) : State × List Text :=
  let s1 := { s with attemptingSend := true, lastSendTime := time }
  let r := assembleBatch s1 time
  let s2 := { s1 with recurringCommands := r.2 }
  if r.1 ≠ [] then
    ({ s2 with udpateRecieved := false, oneOffCommands := [], attemptingSend := false },
      [requestUrl r.1])
  else
    ({ s2 with attemptingSend := false }, [])

/-- The tick handler `#runUpdate()` (lines 163-193) with `time` the value of `Date.now()`:
the state after the tick and the list of transport calls it made. -/
def runUpdate (s : State) (time : Int) : State × List Text :=
  if guard s time then tickBody s time else (s, [])

/-- The body of `sendCommand(command)` (lines 90-95) applied to the queue of `s`. The
source method appends to `#oneOffCommands`, which is not the queue the tick reads:
`Device.sendCommand` is the method on the object. -/
def sendCommand (s : State) (command : Text) : State :=
  if command ≠ [] then { s with oneOffCommands := s.oneOffCommands ++ command } else s

/-- A call that reaches the scheduler between a send and its response: a timer tick at
a time, or one of the three public queueing methods. -/
inductive Event where
  | tick (time : Int)
  | sendCommand (command : Text)
  | addRecurringMessage (command : Text) (interval : Int)
  | removeRecurringMessage (command : Text)
deriving DecidableEq, Repr

/-- The state after one event and the transport calls the event made. A queueing call is
given its effect on the queue and registry of `s`, the most it could do to what the tick
reads. In the source the three methods write private fields and leave every property of
`s` as it is, which is the effect of the same event with an empty command. -/
def step (s : State) : Event → State × List Text
  | .tick time => runUpdate s time
  | .sendCommand command => (sendCommand s command, [])
  | .addRecurringMessage command interval =>
    ({ s with recurringCommands := addRecurringMessage command interval s.recurringCommands }, [])
  | .removeRecurringMessage command =>
    ({ s with recurringCommands := removeRecurringMessage command s.recurringCommands }, [])

/-- The state after a sequence of events and all transport calls made, in order. -/
def run (s : State) : List Event → State × List Text
  | [] => (s, [])
  | ev :: evs =>
    let r := step s ev
    let r' := run r.1 evs
    (r'.1, r.2 ++ r'.2)

/-- `stop()` (lines 50-57). The test of line 52 reads the accessor `running` of lines
27-30, whose getter returns `#running`. Line 54 assigns to that accessor, which has no
setter; class code is strict, so the assignment throws a `TypeError` and writes nothing,
line 55 (`clearInterval`) is not reached and the timer stays armed. -/
def stop (s : State) : Except String State :=
  if s.running then .error "TypeError: Cannot set property running which has only a getter"
  else .ok s

/-- The getter `running` (lines 27-30) after a call of `stop()`: an exception leaves the
object as it was. -/
def runningAfterStop (s : State) : Bool :=
  match stop s with
  | .ok s' => s'.running
  | .error _ => s.running

/-- What `notifyListeners` is called with. -/
inductive Payload where
  /-- The string `g_wwr_req.responseText`. -/
  | responseText (r : Text)
  /-- The field `immCommandCollection`, after `commandCollection.parseCommands` has been
  given the response text `parsed`. -/
  | immCommandCollection (parsed : Text)
deriving DecidableEq, Repr

/-- The result of the response handler: the state, the notifications delivered to the
listeners, and the transport calls made. -/
structure Handled where
  state : State
  notified : List Payload
  calls : List Text
deriving DecidableEq, Repr

/-- `#handleResponse()` (lines 196-211) with the `readyState` and `responseText` of the
request and `time` the value of `Date.now()` read by the tick of line 208.
`wwr_run_update` is the tick: `HardwareComms` has it under this name, `AbstractDevice`
under the name `#runUpdate`. Line 205 sets a property `updateReceived` that nothing
reads. -/
def handleResponse (s : State) (readyState : Nat) (responseText : Text) (time : Int) :
    Handled :=
  if readyState = 4 then
    let s1 := { s with udpateRecieved := true }
    if responseText ≠ [] then
      let r := runUpdate s1 time
      ⟨r.1, [Payload.immCommandCollection responseText], r.2⟩
    else ⟨s1, [], []⟩
  else ⟨s, [], []⟩

/-- `bankNum.toString()` for an integer: its decimal digits, with a minus sign in front of
a negative number. -/
def decimal : Int → Text
  | .ofNat m => Nat.toDigits 10 m
  | .negSucc m => '-' :: Nat.toDigits 10 (m + 1)

/-- `#sendBankCommand(bankNum)` of `SennheiserDevice` (lines 355-358). -/
def sendBankCommand (bankNum : Int) : Text :=
  "BankList ".toList ++ decimal bankNum ++ ['\r']

/-- `getBank(bankNum)` of `SennheiserDevice` (lines 247-253); a `throw` is an `error`. -/
def getBank (bankNum : Int) : Except String Text :=
  if bankNum < 1 ∨ bankNum > 20 then .error "Invalid bank number"
  else .ok (sendBankCommand bankNum)

/-- `getUserBank(bankNum)` of `SennheiserDevice` (lines 255-262). -/
def getUserBank (bankNum : Int) : Except String Text :=
  if bankNum < 1 ∨ bankNum > 6 then .error "Invalid bank number"
  else .ok (sendBankCommand (bankNum + 20))

/-- The state after a sequence of ticks at the given times and all transport calls made,
in order. -/
def runTicks (s : State) : List Int → State × List Text
  | [] => (s, [])
  | t :: ts =>
    let r := runUpdate s t
    let r' := runTicks r.1 ts
    (r'.1, r.2 ++ r'.2)

/-- The object with its public properties and its private fields kept apart. `none` is a
property that has not been assigned (`undefined`). Left out are the fields no modelled
method reads: `#recurringCommands`, `#minUpdateTime`, `#observers`, `#runInterval`. -/
structure Device where
  /-- The property `g_wwr_timer_freq`. -/
  g_wwr_timer_freq : Int
  /-- The property `g_wwr_req_list`. -/
  g_wwr_req_list : Text
  /-- The property `g_wwr_req_recur`. -/
  g_wwr_req_recur : List Entry
  /-- The property `attemptingSend`. -/
  attemptingSend : Option Bool
  /-- The property `udpateRecieved`. -/
  udpateRecieved : Option Bool
  /-- The property `lastSendTime`. -/
  lastSendTime : Option Int
  /-- The field `#running`. -/
  privRunning : Bool
  /-- The field `#attemptingSend`. -/
  privAttemptingSend : Option Bool
  /-- The field `#udpateRecieved`. -/
  privUdpateRecieved : Option Bool
  /-- The field `#lastSendTime`. -/
  privLastSendTime : Option Int
  /-- The field `#oneOffCommands`. -/
  privOneOffCommands : Option Text
deriving DecidableEq, Repr

/-- The object after `constructor(minUpdate)` (lines 14-22): lines 17-19 and 21 assign
`g_wwr_timer_freq`, `g_wwr_req_list`, `g_wwr_req_recur` and `#running`; nothing else is
assigned. -/
def Device.construct (minUpdate : Int) : Device :=
  { g_wwr_timer_freq := minUpdate, g_wwr_req_list := [], g_wwr_req_recur := [],
    attemptingSend := none, udpateRecieved := none, lastSendTime := none,
    privRunning := false, privAttemptingSend := none, privUdpateRecieved := none,
    privLastSendTime := none, privOneOffCommands := none }

/-- `start()` (lines 35-45) with `now` the value of `Date.now()`: lines 39-42 assign the
four private fields. The timer armed in line 43 is outside the object: its firings are the
ticks. -/
def Device.start (dev : Device) (now : Int) : Device :=
  if !dev.privRunning then
    { dev with privLastSendTime := some (now - 1), privUdpateRecieved := some true,
               privRunning := true, privAttemptingSend := some false }
  else dev

/-- `sendCommand(command)` (lines 90-95): `this.#oneOffCommands += command`. An
unassigned field is `undefined`, which `+=` turns into the text `"undefined"`. -/
def Device.sendCommand (dev : Device) (command : Text) : Device :=
  if command ≠ [] then
    { dev with privOneOffCommands :=
        (some ((dev.privOneOffCommands.getD "undefined".toList) ++ command)) }
  else dev

/-- The guard of `#runUpdate` (line 166) on the object: `this.attemptingSend` and
`this.udpateRecieved` are falsy when unassigned, `this.running` is the getter of `#running`,
and `time - this.lastSendTime` is `NaN`, not greater than 3000, when `lastSendTime` is
unassigned. -/
def Device.guard (dev : Device) (time : Int) : Bool :=
  !(dev.attemptingSend.getD false) && dev.privRunning &&
    (dev.udpateRecieved.getD false ||
      (match dev.lastSendTime with
        | none => false
        | some l => decide (time - l > 3000)))

/-- The tick `#runUpdate()` (lines 163-193) on the object: the object after the tick and
the URLs opened and sent. -/
def Device.runUpdate (dev : Device) (time : Int) : Device × List Text :=
  if dev.guard time then
    let r := recurLoop time dev.g_wwr_req_recur
      (if dev.g_wwr_req_list ≠ [] then dev.g_wwr_req_list else [])
    if r.1 ≠ [] then
      ({ dev with attemptingSend := some false, lastSendTime := some time,
                  g_wwr_req_recur := r.2, udpateRecieved := some false,
                  g_wwr_req_list := [] },
        [requestUrl r.1])
    else
      ({ dev with attemptingSend := some false, lastSendTime := some time,
                  g_wwr_req_recur := r.2 }, [])
  else (dev, [])

/-! ## Specification-side definitions -/

/-- The entry by entry reading of `removeRecurringMessage` in the specification: every
entry containing `command` loses its first occurrence, and is dropped when nothing is
left. -/
def removeEntrywise (command : Text) : List Entry → List Entry
  | [] => []
  | e :: rest =>
    if indexOf command e.text ≠ none then
      if replace command e.text ≠ [] then
        ⟨replace command e.text, e.interval, 0⟩ :: removeEntrywise command rest
      else removeEntrywise command rest
    else e :: removeEntrywise command rest

/-- The intervals of a call sequence in the order of their first occurrence. -/
def firstSeen : List Int → List Int
  | [] => []
  | d :: ds => d :: (firstSeen ds).filter (fun x => x ≠ d)

/-- The text the specification gives the bucket of interval `d` after the calls `cs`:
the commands added with interval `d`, newest first. -/
def bucketText (cs : List (Text × Int)) (d : Int) : Text :=
  ((cs.filter (fun p => p.2 = d)).reverse.map Prod.fst).flatten

/-- The registry after a sequence of `addRecurringMessage` calls, first call first. -/
def addAll (rc : List Entry) (cs : List (Text × Int)) : List Entry :=
  cs.foldl (fun acc p => addRecurringMessage p.1 p.2 acc) rc

/-- The registry the specification describes after the calls `cs`: one entry per
interval, in the order the intervals were first added, with the merged text and an unset
last fired time. -/
def mergedRegistry (cs : List (Text × Int)) : List Entry :=
  (firstSeen (cs.map Prod.snd)).map (fun d => ⟨bucketText cs d, d, 0⟩)

/-- The due condition in the words of the specification: the last fired time is unset
(the source writes `0`), or `t - lastFired ≥ interval`. -/
def dueSpec (t : Int) (e : Entry) : Prop :=
  e.lastFired = 0 ∨ t - e.lastFired ≥ e.interval

/-- The batch of a tick in the words of the specification: the one-off queue followed by
the texts of the due entries in registry order. -/
def batchSpec (s : State) (t : Int) : Text :=
  s.oneOffCommands ++ ((s.recurringCommands.filter (isDue t)).map Entry.text).flatten

/-- The entry of interval `d`, when the registry has one. -/
def bucket (d : Int) (rc : List Entry) : Option Entry :=
  rc.find? (fun e => decide (e.interval = d))

/-- The tick at time `t` in state `s` sends a batch with the text of the entry `e` in it:
the batch is the queue, the due texts in front of `e`, the text of `e`, and the due texts
behind `e`. -/
def Includes (s : State) (t : Int) (e : Entry) : Prop :=
  ∃ front back : List Entry, s.recurringCommands = front ++ e :: back ∧
    (runUpdate s t).2 =
      [requestUrl (s.oneOffCommands ++ ((front.filter (isDue t)).map Entry.text).flatten
        ++ e.text ++ ((back.filter (isDue t)).map Entry.text).flatten)]

/-- The batch assembled at time `t` in state `s` has no part from the entry `e`: it is the
queue, the due texts in front of `e` and the due texts behind `e`. -/
def Excludes (s : State) (t : Int) (e : Entry) : Prop :=
  ∃ front back : List Entry, s.recurringCommands = front ++ e :: back ∧
    (assembleBatch s t).1 =
      s.oneOffCommands ++ ((front.filter (isDue t)).map Entry.text).flatten
        ++ ((back.filter (isDue t)).map Entry.text).flatten

/-- Every tick of the sequence, in the state it meets, leaves the entry `e` of interval
`d` alone: it fails its guard or comes less than `d` after the entry was last fired. -/
def QuietTicks (d : Int) (e : Entry) : State → List Int → Bool
  | _, [] => true
  | s, t :: ts =>
    (!guard s t || decide (t < e.lastFired + d)) && QuietTicks d e (runUpdate s t).1 ts

/-- The batch of a tick with "due" read as in the specification: the one-off queue
followed by the texts of the entries whose last fired time is unset or at least their
interval before `t`, in registry order. -/
def batchDueSpec (s : State) (t : Int) : Text :=
  s.oneOffCommands ++
    ((s.recurringCommands.filter
      (fun e => decide (e.lastFired = 0 ∨ t - e.lastFired ≥ e.interval))).map
        Entry.text).flatten

/-! ## Registry lemmas -/

theorem addLoop_intervals (command : Text) (interval : Int) (rc : List Entry) :
    (addLoop command interval rc).map Entry.interval =
      if interval ∈ rc.map Entry.interval then rc.map Entry.interval
      else rc.map Entry.interval ++ [interval] := by
  induction rc with
  | nil => simp [addLoop]
  | cons e rest ih =>
    by_cases h : interval = e.interval
    · simp [addLoop, h]
    · have h' : ¬ e.interval = interval := fun q => h q.symm
      by_cases hm : interval ∈ rest.map Entry.interval
      · simp only [addLoop, h, if_false, List.map_cons, ih, hm, if_true, List.mem_cons, or_true]
      · simp only [addLoop, h, if_false, List.map_cons, ih, hm, List.mem_cons, or_false,
          List.cons_append]

theorem addLoop_intervals_nodup (command : Text) (interval : Int) (rc : List Entry)
    (h : (rc.map Entry.interval).Nodup) :
    ((addLoop command interval rc).map Entry.interval).Nodup := by
  rw [addLoop_intervals]
  split
  · exact h
  · rename_i hm
    exact List.Nodup.append h (List.nodup_singleton _) (by
      intro a ha hb
      rw [List.mem_singleton] at hb
      exact hm (hb ▸ ha))

theorem removeLoop_nil (command : Text) : removeLoop command [] = [] := rfl

theorem removeLoop_miss (command : Text) (e : Entry) (rest : List Entry)
    (h : indexOf command e.text = none) :
    removeLoop command (e :: rest) = e :: removeLoop command rest := by
  cases rest <;> simp [removeLoop, h]

theorem removeLoop_shorten (command : Text) (e : Entry) (rest : List Entry)
    (h : indexOf command e.text ≠ none) (h2 : replace command e.text ≠ []) :
    removeLoop command (e :: rest) =
      ⟨replace command e.text, e.interval, 0⟩ :: removeLoop command rest := by
  cases rest <;> simp [removeLoop, h, h2]

theorem removeLoop_delete_last (command : Text) (e : Entry)
    (h : indexOf command e.text ≠ none) (h2 : replace command e.text = []) :
    removeLoop command [e] = [] := by
  simp [removeLoop, h, h2]

theorem removeLoop_delete_skip (command : Text) (e e' : Entry) (rest : List Entry)
    (h : indexOf command e.text ≠ none) (h2 : replace command e.text = []) :
    removeLoop command (e :: e' :: rest) = e' :: removeLoop command rest := by
  simp [removeLoop, h, h2]

/-- Induction along the steps of the removal loop: a deleted entry takes the entry behind
it out of the scan. -/
theorem removeLoop_cases (command : Text) (P : List Entry → Prop)
    (hnil : P [])
    (hmiss : ∀ e rest, indexOf command e.text = none → P rest → P (e :: rest))
    (hshort : ∀ e rest, indexOf command e.text ≠ none → replace command e.text ≠ [] →
      P rest → P (e :: rest))
    (hlast : ∀ e, indexOf command e.text ≠ none → replace command e.text = [] → P [e])
    (hskip : ∀ e e' rest, indexOf command e.text ≠ none → replace command e.text = [] →
      P rest → P (e :: e' :: rest))
    (rc : List Entry) : P rc := by
  have key : ∀ n (rc : List Entry), rc.length ≤ n → P rc := by
    intro n
    induction n with
    | zero =>
      intro rc h
      have : rc = [] := List.length_eq_zero.mp (Nat.le_zero.mp h)
      simpa [this] using hnil
    | succ n ih =>
      intro rc h
      match rc, h with
      | [], _ => exact hnil
      | e :: rest, h =>
        have hr : rest.length ≤ n := by simpa using h
        by_cases h1 : indexOf command e.text = none
        · exact hmiss e rest h1 (ih rest hr)
        · by_cases h2 : replace command e.text = []
          · match rest, hr with
            | [], _ => exact hlast e h1 h2
            | e' :: rest', hr =>
              have : rest'.length ≤ n := by
                simp only [List.length_cons] at hr
                omega
              exact hskip e e' rest' h1 h2 (ih rest' this)
          · exact hshort e rest h1 h2 (ih rest hr)
  exact key rc.length rc le_rfl

theorem removeLoop_sublist (command : Text) (rc : List Entry) :
    ((removeLoop command rc).map Entry.interval).Sublist (rc.map Entry.interval) := by
  induction rc using removeLoop_cases command with
  | hnil => simp [removeLoop_nil]
  | hmiss e rest h ih =>
    rw [removeLoop_miss _ _ _ h]
    exact ih.cons₂ _
  | hshort e rest h h2 ih =>
    rw [removeLoop_shorten _ _ _ h h2]
    exact ih.cons₂ _
  | hlast e h h2 =>
    rw [removeLoop_delete_last _ _ h h2]
    exact List.nil_sublist _
  | hskip e e' rest h h2 ih =>
    rw [removeLoop_delete_skip _ _ _ _ h h2]
    exact (ih.cons₂ _).cons _

theorem removeLoopIdx_done (command : Text) (fuel i : Nat) (rc : List Entry)
    (h : rc.length ≤ i) : removeLoopIdx command fuel i rc = rc := by
  cases fuel with
  | zero => rfl
  | succ fuel =>
    have : rc[i]? = none := List.getElem?_eq_none h
    simp [removeLoopIdx, this]

theorem getElem?_append_length (pre suf : List Entry) (e : Entry) :
    (pre ++ e :: suf)[pre.length]? = some e := by
  rw [List.getElem?_append_right (le_refl _)]
  simp

theorem removeLoopIdx_append (command : Text) (fuel : Nat) :
    ∀ (pre suf : List Entry), suf.length ≤ fuel →
      removeLoopIdx command fuel pre.length (pre ++ suf) = pre ++ removeLoop command suf := by
  induction fuel with
  | zero =>
    intro pre suf h
    have : suf = [] := List.length_eq_zero.mp (Nat.le_zero.mp h)
    subst this
    simp [removeLoopIdx, removeLoop_nil]
  | succ fuel ih =>
    intro pre suf h
    match suf, h with
    | [], _ =>
      rw [removeLoopIdx_done _ _ _ _ (by simp)]
      simp [removeLoop_nil]
    | e :: rest, h =>
      have hr : rest.length ≤ fuel := by simpa using h
      have hlen : (pre ++ [e]).length = pre.length + 1 := by simp
      by_cases h1 : indexOf command e.text = none
      · rw [removeLoop_miss _ _ _ h1]
        simp only [removeLoopIdx, getElem?_append_length, h1, ne_eq, not_true_eq_false,
          if_false]
        have := ih (pre ++ [e]) rest hr
        rw [hlen] at this
        simpa using this
      · by_cases h2 : replace command e.text = []
        · simp only [removeLoopIdx, getElem?_append_length, h1, h2, ne_eq, not_false_eq_true,
            not_true_eq_false, if_true, if_false]
          have he : (pre ++ e :: rest).eraseIdx pre.length = pre ++ rest := by
            rw [List.eraseIdx_append_of_length_le (le_refl _)]
            simp
          rw [he]
          match rest, hr with
          | [], _ =>
            rw [removeLoop_delete_last _ _ h1 h2, removeLoopIdx_done _ _ _ _ (by simp)]
          | e' :: rest', hr =>
            rw [removeLoop_delete_skip _ _ _ _ h1 h2]
            have hr' : rest'.length ≤ fuel := by
              simp only [List.length_cons] at hr
              omega
            have := ih (pre ++ [e']) rest' hr'
            rw [show (pre ++ [e']).length = pre.length + 1 by simp] at this
            simpa using this
        · rw [removeLoop_shorten _ _ _ h1 h2]
          simp only [removeLoopIdx, getElem?_append_length, h1, h2, ne_eq, not_false_eq_true,
            if_true]
          have hs : (pre ++ e :: rest).set pre.length ⟨replace command e.text, e.interval, 0⟩
              = pre ++ ⟨replace command e.text, e.interval, 0⟩ :: rest := by
            simp
          rw [hs]
          have := ih (pre ++ [⟨replace command e.text, e.interval, 0⟩]) rest hr
          rw [show (pre ++ [(⟨replace command e.text, e.interval, 0⟩ : Entry)]).length
            = pre.length + 1 by simp] at this
          simpa using this

/-- The index loop of the source, run from index `0` with the array length as fuel,
computes what `removeLoop` computes. -/
theorem removeLoopIdx_eq_removeLoop (command : Text) (rc : List Entry) :
    removeLoopIdx command rc.length 0 rc = removeLoop command rc := by
  simpa using removeLoopIdx_append command rc.length [] rc le_rfl

theorem RegOp.apply_nodup (rc : List Entry) (op : RegOp)
    (h : (rc.map Entry.interval).Nodup) : ((op.apply rc).map Entry.interval).Nodup := by
  cases op with
  | add command interval =>
    simp only [RegOp.apply, addRecurringMessage]
    split
    · exact addLoop_intervals_nodup _ _ _ h
    · exact h
  | remove command =>
    simp only [RegOp.apply, removeRecurringMessage]
    split
    · exact (removeLoop_sublist command rc).nodup h
    · exact h

theorem applyOps_nodup (ops : List RegOp) (rc : List Entry)
    (h : (rc.map Entry.interval).Nodup) : ((applyOps rc ops).map Entry.interval).Nodup := by
  induction ops generalizing rc with
  | nil => exact h
  | cons op ops ih => exact ih _ (RegOp.apply_nodup rc op h)

/-! ## Merging lemmas -/

theorem mem_firstSeen (l : List Int) (d : Int) : d ∈ firstSeen l ↔ d ∈ l := by
  induction l with
  | nil => simp [firstSeen]
  | cons x l ih =>
    simp only [firstSeen, List.mem_cons, List.mem_filter, ih, decide_eq_true_eq]
    constructor
    · rintro (h | ⟨h, -⟩)
      · exact Or.inl h
      · exact Or.inr h
    · rintro (h | h)
      · exact Or.inl h
      · by_cases hx : d = x
        · exact Or.inl hx
        · exact Or.inr ⟨h, hx⟩

theorem nodup_firstSeen (l : List Int) : (firstSeen l).Nodup := by
  induction l with
  | nil => simp [firstSeen]
  | cons x l ih =>
    simp only [firstSeen, List.nodup_cons, List.mem_filter, decide_eq_true_eq]
    exact ⟨fun h => h.2 rfl, ih.filter _⟩

theorem firstSeen_append_singleton (l : List Int) (d : Int) :
    firstSeen (l ++ [d]) = if d ∈ l then firstSeen l else firstSeen l ++ [d] := by
  induction l with
  | nil => simp [firstSeen]
  | cons x l ih =>
    show firstSeen (x :: (l ++ [d])) = _
    rw [firstSeen, ih]
    by_cases hx : d = x
    · subst hx
      by_cases hm : d ∈ l
      · simp [hm, firstSeen]
      · simp [hm, firstSeen, List.filter_append]
    · by_cases hm : d ∈ l
      · simp [hm, firstSeen]
      · simp [hm, hx, firstSeen, List.filter_append]

theorem bucketText_append_singleton (cs : List (Text × Int)) (c : Text) (d x : Int) :
    bucketText (cs ++ [(c, d)]) x = if d = x then c ++ bucketText cs x else bucketText cs x := by
  by_cases h : d = x
  · simp [bucketText, List.filter_append, h]
  · simp [bucketText, List.filter_append, h]

theorem bucketText_of_not_mem (cs : List (Text × Int)) (d : Int)
    (h : d ∉ cs.map Prod.snd) : bucketText cs d = [] := by
  have : cs.filter (fun p => p.2 = d) = [] := by
    rw [List.filter_eq_nil_iff]
    intro p hp hd
    exact h (List.mem_map.mpr ⟨p, hp, by simpa using hd⟩)
  simp [bucketText, this]

theorem addLoop_map (c : Text) (d : Int) (f : Int → Entry) (hf : ∀ x, (f x).interval = x)
    (L : List Int) (hL : L.Nodup) :
    addLoop c d (L.map f) =
      if d ∈ L then L.map (fun x => if d = x then ⟨c ++ (f x).text, x, 0⟩ else f x)
      else L.map f ++ [⟨c, d, 0⟩] := by
  induction L with
  | nil => simp [addLoop]
  | cons x L ih =>
    have hx : x ∉ L := (List.nodup_cons.mp hL).1
    have hL' : L.Nodup := (List.nodup_cons.mp hL).2
    by_cases h : d = x
    · subst h
      have hcongr : L.map f = L.map (fun x => if d = x then ⟨c ++ (f x).text, x, 0⟩ else f x) := by
        apply List.map_congr_left
        intro y hy
        have : d ≠ y := fun q => hx (q ▸ hy)
        simp [this]
      simp only [List.map_cons, addLoop, hf, if_true, List.mem_cons, true_or]
      rw [← hcongr]
    · have h' : ¬ x = d := fun q => h q.symm
      simp only [List.map_cons, addLoop, hf, h, if_false, ih hL', List.mem_cons, false_or]
      by_cases hm : d ∈ L
      · simp [hm]
      · simp [hm]

theorem addLoop_mergedRegistry (cs : List (Text × Int)) (c : Text) (d : Int) :
    addLoop c d (mergedRegistry cs) = mergedRegistry (cs ++ [(c, d)]) := by
  unfold mergedRegistry
  rw [addLoop_map c d _ (fun _ => rfl) _ (nodup_firstSeen _), List.map_append,
    List.map_cons, List.map_nil, firstSeen_append_singleton]
  simp only [mem_firstSeen]
  by_cases hm : d ∈ cs.map Prod.snd
  · simp only [hm, if_true]
    apply List.map_congr_left
    intro x _
    rw [bucketText_append_singleton]
    by_cases hx : d = x
    · simp [hx]
    · simp [hx]
  · simp only [hm, if_false, List.map_append, List.map_cons, List.map_nil]
    congr 1
    · apply List.map_congr_left
      intro x hx
      have hne : d ≠ x := fun q => hm ((mem_firstSeen _ _).mp (q ▸ hx))
      rw [bucketText_append_singleton, if_neg hne]
    · rw [bucketText_append_singleton, if_pos rfl, bucketText_of_not_mem cs d hm,
        List.append_nil]

theorem addAll_eq_mergedRegistry (cs : List (Text × Int)) (h : ∀ p ∈ cs, p.1 ≠ []) :
    addAll [] cs = mergedRegistry cs := by
  induction cs using List.reverseRecOn with
  | nil => rfl
  | append_singleton cs p ih =>
    have hcs : ∀ q ∈ cs, q.1 ≠ [] := fun q hq => h q (List.mem_append_left _ hq)
    have hp : p.1 ≠ [] := h p (by simp)
    obtain ⟨c, d⟩ := p
    unfold addAll at ih ⊢
    rw [List.foldl_append, List.foldl_cons, List.foldl_nil, ih hcs]
    simp only [addRecurringMessage]
    rw [if_pos hp]
    exact addLoop_mergedRegistry cs c d

theorem filter_map_of_nodup (f : Int → Entry) (hf : ∀ x, (f x).interval = x)
    (L : List Int) (hL : L.Nodup) (d : Int) (hd : d ∈ L) :
    (L.map f).filter (fun e => e.interval = d) = [f d] := by
  induction L with
  | nil => simp at hd
  | cons x L ih =>
    have hx : x ∉ L := (List.nodup_cons.mp hL).1
    have hL' : L.Nodup := (List.nodup_cons.mp hL).2
    by_cases h : x = d
    · subst h
      have : (L.map f).filter (fun e => e.interval = x) = [] := by
        rw [List.filter_eq_nil_iff]
        intro e he
        obtain ⟨y, hy, rfl⟩ := List.mem_map.mp he
        have : y ≠ x := fun q => hx (q ▸ hy)
        simp [hf, this]
      simp [List.filter_cons, hf, this]
    · have hd' : d ∈ L := by
        rcases List.mem_cons.mp hd with q | q
        · exact absurd q.symm h
        · exact q
      simp [List.filter_cons, hf, h, ih hL' hd']

/-! ## Text search lemmas -/

theorem isPrefixOf_self (a : Text) : a.isPrefixOf a = true := by
  induction a with
  | nil => rfl
  | cons c a ih => simp [List.isPrefixOf, ih]

theorem indexOf_self (a : Text) : indexOf a a ≠ none := by
  cases a with
  | nil => simp [indexOf]
  | cons c a => simp [indexOf]

theorem replace_self (a : Text) : replace a a = [] := by
  cases a with
  | nil => rfl
  | cons c a => simp [replace]

theorem indexOf_append_self (a b : Text) : indexOf a (b ++ a) ≠ none := by
  induction b with
  | nil => simpa using indexOf_self a
  | cons x b ih =>
    show indexOf a (x :: (b ++ a)) ≠ none
    unfold indexOf
    split
    · simp
    · intro h
      cases hq : indexOf a (b ++ a) with
      | none => exact ih hq
      | some n => simp [hq] at h

theorem replace_append_self (a b : Text)
    (h : ∀ i, i < b.length → ¬ a <+: (b ++ a).drop i) : replace a (b ++ a) = b := by
  induction b with
  | nil => simpa using replace_self a
  | cons x b ih =>
    have h0 : ¬ a.isPrefixOf (x :: (b ++ a)) = true := by
      rw [List.isPrefixOf_iff_prefix]
      exact h 0 (by simp)
    have hrest : ∀ i, i < b.length → ¬ a <+: (b ++ a).drop i := by
      intro i hi
      have := h (i + 1) (by simpa using hi)
      simpa using this
    show replace a (x :: (b ++ a)) = x :: b
    unfold replace
    rw [if_neg h0, ih hrest]

/-! ## Tick lemmas -/

theorem recurLoop_fst (t : Int) (rc : List Entry) (str : Text) :
    (recurLoop t rc str).1 = str ++ ((rc.filter (isDue t)).map Entry.text).flatten := by
  induction rc generalizing str with
  | nil => simp [recurLoop]
  | cons e rest ih =>
    by_cases h : e.lastFired + e.interval ≤ t
    · simp [recurLoop, h, ih, isDue, List.filter_cons]
    · simp [recurLoop, h, ih, isDue, List.filter_cons]

theorem recurLoop_snd (t : Int) (rc : List Entry) (str : Text) :
    (recurLoop t rc str).2 =
      rc.map (fun e => if isDue t e then { e with lastFired := t } else e) := by
  induction rc generalizing str with
  | nil => simp [recurLoop]
  | cons e rest ih =>
    by_cases h : e.lastFired + e.interval ≤ t
    · simp [recurLoop, h, ih, isDue]
    · simp [recurLoop, h, ih, isDue]

theorem assembleBatch_fst (s : State) (t : Int) : (assembleBatch s t).1 = batchSpec s t := by
  unfold assembleBatch batchSpec
  rw [recurLoop_fst]
  by_cases h : s.oneOffCommands = []
  · simp [h]
  · simp [h]

theorem assembleBatch_snd (s : State) (t : Int) :
    (assembleBatch s t).2 =
      s.recurringCommands.map (fun e => if isDue t e then { e with lastFired := t } else e) := by
  unfold assembleBatch
  rw [recurLoop_snd]

theorem tickBody_eq (s : State) (t : Int) :
    tickBody s t =
      if batchSpec s t ≠ [] then
        ({ s with
            attemptingSend := false, lastSendTime := t, udpateRecieved := false,
            oneOffCommands := [],
            recurringCommands :=
              s.recurringCommands.map
                (fun e => if isDue t e then { e with lastFired := t } else e) },
          [requestUrl (batchSpec s t)])
      else
        ({ s with
            attemptingSend := false, lastSendTime := t,
            recurringCommands :=
              s.recurringCommands.map
                (fun e => if isDue t e then { e with lastFired := t } else e) }, []) := by
  have hb : batchSpec { s with attemptingSend := true, lastSendTime := t } t = batchSpec s t :=
    rfl
  unfold tickBody
  simp only [assembleBatch_fst, assembleBatch_snd, hb]

theorem map_fire_of_none_due (t : Int) (rc : List Entry)
    (h : ∀ e ∈ rc, isDue t e = false) :
    rc.map (fun e => if isDue t e then { e with lastFired := t } else e) = rc := by
  induction rc with
  | nil => rfl
  | cons e rest ih =>
    have he : isDue t e = false := h e (by simp)
    have hr : ∀ x ∈ rest, isDue t x = false := fun x hx => h x (by simp [hx])
    simp [he, ih hr]

theorem filter_due_of_none_due (t : Int) (rc : List Entry)
    (h : ∀ e ∈ rc, isDue t e = false) : rc.filter (isDue t) = [] := by
  rw [List.filter_eq_nil_iff]
  intro e he
  simp [h e he]

/-! ## Quiet window lemmas -/

theorem runUpdate_quiet (t0 : Int) (s : State) (t : Int)
    (h1 : s.udpateRecieved = false) (h2 : s.lastSendTime = t0) (ht : t ≤ t0 + 3000) :
    runUpdate s t = (s, []) := by
  have hg : guard s t = false := by
    unfold guard
    have : ¬ (t - s.lastSendTime > 3000) := by
      rw [h2]
      omega
    simp [h1, this]
  unfold runUpdate
  rw [hg]
  rfl

theorem step_quiet (t0 : Int) (s : State) (ev : Event)
    (h1 : s.udpateRecieved = false) (h2 : s.lastSendTime = t0)
    (hev : ∀ t, ev = Event.tick t → t ≤ t0 + 3000) :
    (step s ev).2 = [] ∧ (step s ev).1.udpateRecieved = false ∧
      (step s ev).1.lastSendTime = t0 := by
  cases ev with
  | tick t =>
    simp only [step]
    rw [runUpdate_quiet t0 s t h1 h2 (hev t rfl)]
    exact ⟨rfl, h1, h2⟩
  | sendCommand command =>
    have hsc : (sendCommand s command).udpateRecieved = s.udpateRecieved ∧
        (sendCommand s command).lastSendTime = s.lastSendTime := by
      unfold sendCommand
      split <;> exact ⟨rfl, rfl⟩
    exact ⟨rfl, hsc.1.trans h1, hsc.2.trans h2⟩
  | addRecurringMessage command interval => exact ⟨rfl, h1, h2⟩
  | removeRecurringMessage command => exact ⟨rfl, h1, h2⟩

theorem run_quiet (t0 : Int) (evs : List Event) :
    ∀ s : State, s.udpateRecieved = false → s.lastSendTime = t0 →
      (∀ t, Event.tick t ∈ evs → t ≤ t0 + 3000) → (run s evs).2 = [] := by
  induction evs with
  | nil => intro s _ _ _; rfl
  | cons ev evs ih =>
    intro s h1 h2 hev
    have hs := step_quiet t0 s ev h1 h2 (fun t q => hev t (by simp [q]))
    have hr := ih (step s ev).1 hs.2.1 hs.2.2 (fun t q => hev t (by simp [q]))
    simp only [run, hs.1, hr, List.append_nil]

theorem runUpdate_sent (s : State) (t0 : Int) (h : (runUpdate s t0).2 ≠ []) :
    (runUpdate s t0).1.udpateRecieved = false ∧ (runUpdate s t0).1.lastSendTime = t0 := by
  unfold runUpdate at h ⊢
  split at h
  · rename_i hg
    rw [if_pos hg]
    rw [tickBody_eq] at h ⊢
    split at h
    · rename_i hb
      rw [if_pos hb]
      exact ⟨rfl, rfl⟩
    · exact absurd rfl h
  · exact absurd rfl h

/-! ## Interval lemmas -/

theorem addLoop_interval_mem (c : Text) (d : Int) (rc : List Entry) (e : Entry)
    (he : e ∈ addLoop c d rc) : e.interval = d ∨ e.interval ∈ rc.map Entry.interval := by
  have hm : e.interval ∈ (addLoop c d rc).map Entry.interval := List.mem_map_of_mem _ he
  rw [addLoop_intervals] at hm
  split at hm
  · exact Or.inr hm
  · rcases List.mem_append.mp hm with h | h
    · exact Or.inr h
    · exact Or.inl (List.mem_singleton.mp h)

/-! ## Round trip lemmas -/

theorem isPrefixOf_append (c x : Text) : c.isPrefixOf (c ++ x) = true := by
  rw [List.isPrefixOf_iff_prefix]
  exact List.prefix_append c x

theorem indexOf_append_right (c x : Text) : indexOf c (c ++ x) ≠ none := by
  cases h : c ++ x with
  | nil =>
    have hc : c = [] := (List.append_eq_nil.mp h).1
    simp [indexOf, hc]
  | cons a t =>
    have := isPrefixOf_append c x
    rw [h] at this
    simp [indexOf, this]

theorem replace_append_right (c x : Text) : replace c (c ++ x) = x := by
  cases h : c ++ x with
  | nil =>
    have hx : x = [] := (List.append_eq_nil.mp h).2
    simp [replace, hx]
  | cons a t =>
    have hp := isPrefixOf_append c x
    rw [h] at hp
    simp only [replace, hp, if_true]
    rw [← h]
    simp

theorem removeLoop_all_miss (c : Text) (rc : List Entry)
    (h : ∀ e ∈ rc, indexOf c e.text = none) : removeLoop c rc = rc := by
  induction rc with
  | nil => rfl
  | cons e rest ih =>
    rw [removeLoop_miss _ _ _ (h e (by simp)), ih (fun x hx => h x (by simp [hx]))]

theorem addLoop_text_ne_nil (c : Text) (d : Int) (rc : List Entry) (hc : c ≠ [])
    (h : ∀ e ∈ rc, e.text ≠ []) : ∀ e ∈ addLoop c d rc, e.text ≠ [] := by
  induction rc with
  | nil =>
    intro e he
    simp only [addLoop, List.mem_singleton] at he
    subst he
    exact hc
  | cons x rest ih =>
    intro e he
    by_cases hd : d = x.interval
    · simp only [addLoop, hd, if_true, List.mem_cons] at he
      rcases he with rfl | he
      · simp [hc]
      · exact h e (by simp [he])
    · simp only [addLoop, hd, if_false, List.mem_cons] at he
      rcases he with rfl | he
      · exact h e (by simp)
      · exact ih (fun y hy => h y (by simp [hy])) e he

theorem removeLoop_text_ne_nil (c : Text) (rc : List Entry) :
    (∀ e ∈ rc, e.text ≠ []) → ∀ e ∈ removeLoop c rc, e.text ≠ [] := by
  induction rc using removeLoop_cases c with
  | hnil => intro _ e he; simp [removeLoop_nil] at he
  | hmiss x rest h ih =>
    intro hall e he
    rw [removeLoop_miss _ _ _ h, List.mem_cons] at he
    rcases he with rfl | he
    · exact hall e (by simp)
    · exact ih (fun y hy => hall y (by simp [hy])) e he
  | hshort x rest h h2 ih =>
    intro hall e he
    rw [removeLoop_shorten _ _ _ h h2, List.mem_cons] at he
    rcases he with rfl | he
    · exact h2
    · exact ih (fun y hy => hall y (by simp [hy])) e he
  | hlast x h h2 =>
    intro _ e he
    rw [removeLoop_delete_last _ _ h h2] at he
    simp at he
  | hskip x x' rest h h2 ih =>
    intro hall e he
    rw [removeLoop_delete_skip _ _ _ _ h h2, List.mem_cons] at he
    rcases he with rfl | he
    · exact hall e (by simp)
    · exact ih (fun y hy => hall y (by simp [hy])) e he

theorem applyOps_text_ne_nil (ops : List RegOp) (rc : List Entry)
    (h : ∀ e ∈ rc, e.text ≠ []) : ∀ e ∈ applyOps rc ops, e.text ≠ [] := by
  induction ops generalizing rc with
  | nil => exact h
  | cons op ops ih =>
    apply ih
    cases op with
    | add c d =>
      simp only [RegOp.apply, addRecurringMessage]
      split
      · rename_i hc
        exact addLoop_text_ne_nil c d rc hc h
      · exact h
    | remove c =>
      simp only [RegOp.apply, removeRecurringMessage]
      split
      · exact removeLoop_text_ne_nil c rc h
      · exact h

theorem removeLoop_addLoop (c : Text) (d : Int) (rc : List Entry)
    (hnd : (rc.map Entry.interval).Nodup) (hne : ∀ e ∈ rc, e.text ≠ [])
    (hno : ∀ e ∈ rc, e.interval ≠ d → indexOf c e.text = none) :
    removeLoop c (addLoop c d rc) =
      rc.map (fun e => if e.interval = d then { e with lastFired := 0 } else e) := by
  induction rc with
  | nil =>
    simp only [addLoop, List.map_nil]
    exact removeLoop_delete_last _ _ (indexOf_self c) (replace_self c)
  | cons x rest ih =>
    have hx : x.interval ∉ rest.map Entry.interval := (List.nodup_cons.mp hnd).1
    have hnd' : (rest.map Entry.interval).Nodup := (List.nodup_cons.mp hnd).2
    by_cases hd : d = x.interval
    · subst hd
      have hne' : ∀ e ∈ rest, e.interval ≠ x.interval := by
        intro e he q
        exact hx (q ▸ List.mem_map_of_mem _ he)
      have hrest : ∀ e ∈ rest, indexOf c e.text = none :=
        fun e he => hno e (by simp [he]) (hne' e he)
      have hmap : rest.map
          (fun e => if e.interval = x.interval then { e with lastFired := 0 } else e)
          = rest := by
        conv_rhs => rw [← List.map_id rest]
        apply List.map_congr_left
        intro e he
        simp [hne' e he]
      have hxt : x.text ≠ [] := hne x (by simp)
      simp only [addLoop, if_true, List.map_cons, hmap]
      rw [removeLoop_shorten _ _ _ (by exact indexOf_append_right c x.text)
        (by
          show replace c (c ++ x.text) ≠ []
          rw [replace_append_right]
          exact hxt)]
      rw [removeLoop_all_miss c rest hrest]
      simp [replace_append_right]
    · have hd' : ¬ x.interval = d := fun q => hd q.symm
      have hmiss : indexOf c x.text = none := hno x (by simp) hd'
      simp only [addLoop, hd, if_false, List.map_cons, hd']
      rw [removeLoop_miss _ _ _ hmiss,
        ih hnd' (fun e he => hne e (by simp [he])) (fun e he => hno e (by simp [he]))]

/-! ## Queue lemmas -/

theorem runUpdate_recurringCommands (s : State) (t : Int) (hg : guard s t = true) :
    (runUpdate s t).1.recurringCommands =
      s.recurringCommands.map (fun e => if isDue t e then { e with lastFired := t } else e) := by
  unfold runUpdate
  rw [if_pos hg, tickBody_eq]
  split <;> rfl

theorem runUpdate_of_guard_false (s : State) (t : Int) (hg : guard s t = false) :
    runUpdate s t = (s, []) := by
  unfold runUpdate
  rw [hg]
  rfl

/-! ## Bucket lemmas -/

theorem bucket_some (d : Int) (rc : List Entry) (e : Entry) (h : bucket d rc = some e) :
    e.interval = d ∧ ∃ front back : List Entry, rc = front ++ e :: back := by
  unfold bucket at h
  rw [List.find?_eq_some] at h
  obtain ⟨hp, front, back, hrc, _⟩ := h
  exact ⟨by simpa using hp, front, back, hrc⟩

theorem bucket_cons (d : Int) (x : Entry) (rc : List Entry) :
    bucket d (x :: rc) = if x.interval = d then some x else bucket d rc := by
  unfold bucket
  by_cases h : x.interval = d
  · simp [h]
  · simp [h]

theorem bucket_addLoop_eq (c : Text) (d : Int) (rc : List Entry) :
    ∃ old : Text, bucket d (addLoop c d rc) = some ⟨c ++ old, d, 0⟩ := by
  induction rc with
  | nil => exact ⟨[], by simp [addLoop, bucket_cons]⟩
  | cons x rest ih =>
    by_cases h : d = x.interval
    · exact ⟨x.text, by simp [addLoop, bucket_cons, h]⟩
    · obtain ⟨old, hold⟩ := ih
      have h' : ¬ x.interval = d := fun q => h q.symm
      exact ⟨old, by simp [addLoop, bucket_cons, h, h', hold]⟩

theorem bucket_map_fire (d t : Int) (rc : List Entry) :
    bucket d (rc.map (fun e => if isDue t e then { e with lastFired := t } else e))
      = (bucket d rc).map (fun e => if isDue t e then { e with lastFired := t } else e) := by
  induction rc with
  | nil => rfl
  | cons x rest ih =>
    rw [List.map_cons, bucket_cons, bucket_cons, ih]
    have hi : (if isDue t x then { x with lastFired := t } else x).interval = x.interval := by
      split <;> rfl
    rw [hi]
    split <;> rfl

theorem tick_includes (d : Int) (e : Entry) (s : State) (t : Int)
    (hb : bucket d s.recurringCommands = some e) (hg : guard s t = true)
    (hdue : e.lastFired + d ≤ t) (hne : e.text ≠ []) :
    Includes s t e ∧
      bucket d (runUpdate s t).1.recurringCommands = some { e with lastFired := t } := by
  obtain ⟨hd, front, back, hrc⟩ := bucket_some d _ e hb
  have hisdue : isDue t e = true := by
    simp only [isDue, hd, decide_eq_true_eq]
    exact hdue
  have hbatch : batchSpec s t =
      s.oneOffCommands ++ ((front.filter (isDue t)).map Entry.text).flatten
        ++ e.text ++ ((back.filter (isDue t)).map Entry.text).flatten := by
    simp [batchSpec, hrc, List.filter_append, List.filter_cons, hisdue, List.append_assoc]
  constructor
  · refine ⟨front, back, hrc, ?_⟩
    have hnb : batchSpec s t ≠ [] := by
      rw [hbatch]
      simp [hne]
    unfold runUpdate
    rw [if_pos hg, tickBody_eq, if_pos hnb, hbatch]
  · rw [runUpdate_recurringCommands s t hg, bucket_map_fire, hb]
    simp [hisdue]

theorem tick_excludes (d : Int) (e : Entry) (s : State) (t : Int)
    (hb : bucket d s.recurringCommands = some e) (ht : t < e.lastFired + d) :
    Excludes s t e := by
  obtain ⟨hd, front, back, hrc⟩ := bucket_some d _ e hb
  have hnd : isDue t e = false := by
    simp only [isDue, hd, decide_eq_false_iff_not]
    omega
  refine ⟨front, back, hrc, ?_⟩
  rw [assembleBatch_fst]
  simp [batchSpec, hrc, List.filter_append, List.filter_cons, hnd, List.append_assoc]

/-! ## Tick sequence lemmas -/

theorem applyOps_interval_mem (ops : List RegOp) :
    ∀ (rc : List Entry) (e : Entry), e ∈ applyOps rc ops →
      e.interval ∈ rc.map Entry.interval ∨ ∃ c, RegOp.add c e.interval ∈ ops := by
  induction ops with
  | nil =>
    intro rc e he
    exact Or.inl (List.mem_map_of_mem _ he)
  | cons op ops ih =>
    intro rc e he
    have he' : e ∈ applyOps (op.apply rc) ops := he
    rcases ih (op.apply rc) e he' with h | ⟨c, hc⟩
    · cases op with
      | add c d =>
        simp only [RegOp.apply, addRecurringMessage] at h
        split at h
        · obtain ⟨x, hx, hxe⟩ := List.mem_map.mp h
          rcases addLoop_interval_mem c d rc x hx with q | q
          · exact Or.inr ⟨c, by rw [← hxe, q]; exact List.mem_cons_self _ _⟩
          · exact Or.inl (hxe ▸ q)
        · exact Or.inl h
      | remove c =>
        simp only [RegOp.apply, removeRecurringMessage] at h
        split at h
        · exact Or.inl ((removeLoop_sublist c rc).subset h)
        · exact Or.inl h
    · exact Or.inr ⟨c, List.mem_cons_of_mem _ hc⟩

theorem tick_quiet (d : Int) (e : Entry) (s : State) (t : Int)
    (hb : bucket d s.recurringCommands = some e)
    (hu : (!guard s t || decide (t < e.lastFired + d)) = true) :
    bucket d (runUpdate s t).1.recurringCommands = some e := by
  have hd : e.interval = d := (bucket_some d _ e hb).1
  cases hg : guard s t with
  | false => rw [runUpdate_of_guard_false s t hg]; exact hb
  | true =>
    have ht : t < e.lastFired + d := by
      simpa [hg] using hu
    have hnd : isDue t e = false := by
      simp only [isDue, hd, decide_eq_false_iff_not]
      omega
    rw [runUpdate_recurringCommands s t hg, bucket_map_fire, hb]
    simp [hnd]

theorem runTicks_quiet (d : Int) (e : Entry) (ts : List Int) :
    ∀ s : State, bucket d s.recurringCommands = some e → QuietTicks d e s ts = true →
      bucket d (runTicks s ts).1.recurringCommands = some e := by
  induction ts with
  | nil => intro s hb _; exact hb
  | cons t ts ih =>
    intro s hb hu
    simp only [QuietTicks, Bool.and_eq_true] at hu
    exact ih (runUpdate s t).1 (tick_quiet d e s t hb hu.1) hu.2

theorem Device.runUpdate_calls (dev : Device) (t : Int) :
    (dev.runUpdate t).2 =
      if dev.guard t = true then
        (if (recurLoop t dev.g_wwr_req_recur
              (if dev.g_wwr_req_list ≠ [] then dev.g_wwr_req_list else [])).1 ≠ []
          then [requestUrl (recurLoop t dev.g_wwr_req_recur
              (if dev.g_wwr_req_list ≠ [] then dev.g_wwr_req_list else [])).1]
          else [])
      else [] := by
  unfold Device.runUpdate
  by_cases hg : dev.guard t = true
  · rw [if_pos hg, if_pos hg]
    by_cases hb : (recurLoop t dev.g_wwr_req_recur
        (if dev.g_wwr_req_list ≠ [] then dev.g_wwr_req_list else [])).1 ≠ []
    · simp only [hb, if_true, ne_eq, not_false_eq_true]
    · simp only [hb, if_false, ne_eq, not_true_eq_false]
  · rw [if_neg hg, if_neg hg]

theorem Device.sendCommand_guard (dev : Device) (c : Text) (t : Int) :
    (dev.sendCommand c).guard t = dev.guard t := by
  unfold Device.sendCommand
  split <;> rfl

/-! ## Claims -/

/-- C1. Registry uniqueness: after any finite sequence of `addRecurringMessage` and
`removeRecurringMessage` calls on the empty registry, the intervals of the entries are
pairwise distinct, so for every interval value `d` at most one entry has interval `d`. -/
theorem registry_interval_unique (ops : List RegOp) :
    ((applyOps [] ops).map Entry.interval).Nodup ∧
      ∀ d : Int, ((applyOps [] ops).filter (fun e => e.interval = d)).length ≤ 1 := by
  have hn : ((applyOps [] ops).map Entry.interval).Nodup :=
    applyOps_nodup ops [] (by simp)
  refine ⟨hn, fun d => ?_⟩
  have hc := List.nodup_iff_count_le_one.mp hn d
  rw [List.count_eq_countP, List.countP_map, List.countP_eq_length_filter] at hc
  have he : (fun e : Entry => decide (e.interval = d)) = ((fun x => x == d) ∘ Entry.interval) := by
    funext e
    rfl
  rw [he]
  exact hc

/-- C2. Merge text: after `addRecurringMessage (c_1, d_1), ..., (c_n, d_n)` with non-empty
commands on the empty registry, the entries appear in the order their intervals were first
added, and for every interval `d` among the `d_i` exactly one entry has interval `d`: its
text is the concatenation of the commands added with interval `d`, newest first, and its
last fired time is unset. -/
theorem merge_text (cs : List (Text × Int)) (h : ∀ p ∈ cs, p.1 ≠ []) :
    (addAll [] cs).map Entry.interval = firstSeen (cs.map Prod.snd) ∧
      ∀ d ∈ cs.map Prod.snd,
        (addAll [] cs).filter (fun e => e.interval = d) = [⟨bucketText cs d, d, 0⟩] := by
  rw [addAll_eq_mergedRegistry cs h]
  refine ⟨?_, fun d hd => ?_⟩
  · simp [mergedRegistry, Function.comp_def]
  · exact filter_map_of_nodup _ (fun _ => rfl) _ (nodup_firstSeen _) d
      ((mem_firstSeen _ _).mpr hd)

/-- C2, at the calls `("A;", 500)`, `("B;", 1000)`, `("C;", 500)`: the intervals are
`[500, 1000]` and the single entry of interval `500` has the text `"C;A;"`. -/
theorem merge_text_witness :
    (addAll [] [(['A', ';'], 500), (['B', ';'], 1000), (['C', ';'], 500)]).map Entry.interval
        = [500, 1000] ∧
      (addAll [] [(['A', ';'], 500), (['B', ';'], 1000), (['C', ';'], 500)]).filter
          (fun e => e.interval = 500)
        = [⟨['C', ';', 'A', ';'], 500, 0⟩] :=
  ⟨(merge_text [(['A', ';'], 500), (['B', ';'], 1000), (['C', ';'], 500)] (by decide)).1,
    (merge_text [(['A', ';'], 500), (['B', ';'], 1000), (['C', ';'], 500)] (by decide)).2
      500 (by decide)⟩

/-- C3. The removal loop does not look at every entry: in the registry
`[("A;", 500), ("A;B;", 1000)]`, which the calls `add("A;", 500)`, `add("B;", 1000)`,
`add("A;", 1000)` build from the empty one, `removeRecurringMessage("A;")` deletes the first
entry and steps over the second, which keeps its text `"A;B;"`; the index loop of the
source does the same, and the entry by entry reading gives `[("B;", 1000)]`. -/
theorem remove_skips_entry_behind_deleted :
    applyOps [] [.add ['A', ';'] 500, .add ['B', ';'] 1000, .add ['A', ';'] 1000]
        = [⟨['A', ';'], 500, 0⟩, ⟨['A', ';', 'B', ';'], 1000, 0⟩] ∧
      removeRecurringMessage ['A', ';'] [⟨['A', ';'], 500, 0⟩, ⟨['A', ';', 'B', ';'], 1000, 0⟩]
        = [⟨['A', ';', 'B', ';'], 1000, 0⟩] ∧
      removeLoopIdx ['A', ';'] 2 0 [⟨['A', ';'], 500, 0⟩, ⟨['A', ';', 'B', ';'], 1000, 0⟩]
        = [⟨['A', ';', 'B', ';'], 1000, 0⟩] ∧
      indexOf ['A', ';'] ['A', ';', 'B', ';'] = some 0 ∧
      removeEntrywise ['A', ';'] [⟨['A', ';'], 500, 0⟩, ⟨['A', ';', 'B', ';'], 1000, 0⟩]
        = [⟨['B', ';'], 1000, 0⟩] := by
  decide

/-- C4. Removal after merge: for non-empty commands `a` and `b` such that `a` has no
occurrence in `b ++ a` starting inside `b`, the calls `add(a, d)`, `add(b, d)`, `remove(a)`
on the empty registry leave the single entry `(b, d)` with an unset last fired time, and a
further `remove(b)` leaves no entry. -/
theorem removal_after_merge (a b : Text) (d : Int) (ha : a ≠ []) (hb : b ≠ [])
    (hocc : ∀ i, i < b.length → ¬ a <+: (b ++ a).drop i) :
    applyOps [] [.add a d, .add b d, .remove a] = [⟨b, d, 0⟩] ∧
      applyOps [] [.add a d, .add b d, .remove a, .remove b] = [] := by
  have h1 : applyOps [] [.add a d, .add b d] = [⟨b ++ a, d, 0⟩] := by
    simp [applyOps, RegOp.apply, addRecurringMessage, ha, hb, addLoop]
  have h2 : removeRecurringMessage a [⟨b ++ a, d, 0⟩] = [⟨b, d, 0⟩] := by
    have hr : replace a (b ++ a) = b := replace_append_self a b hocc
    unfold removeRecurringMessage
    rw [if_pos ha, removeLoop_shorten _ _ _ (indexOf_append_self a b) (by rw [hr]; exact hb),
      removeLoop_nil]
    simp [hr]
  have h3 : removeRecurringMessage b [⟨b, d, 0⟩] = [] := by
    unfold removeRecurringMessage
    rw [if_pos hb, removeLoop_delete_last _ _ (indexOf_self b) (replace_self b)]
  have e1 : applyOps [] [.add a d, .add b d, .remove a]
      = removeRecurringMessage a (applyOps [] [.add a d, .add b d]) := rfl
  have e2 : applyOps [] [.add a d, .add b d, .remove a, .remove b]
      = removeRecurringMessage b (removeRecurringMessage a (applyOps [] [.add a d, .add b d])) :=
    rfl
  rw [e1, e2, h1, h2, h3]
  exact ⟨rfl, rfl⟩

/-- C4, at `a = "A;"`, `b = "B;"`, `d = 500`: after `add("A;", 500)`, `add("B;", 500)`,
`remove("A;")` the registry is the single entry `("B;", 500)`, and after a further
`remove("B;")` it is empty. -/
theorem removal_after_merge_witness :
    applyOps [] [.add ['A', ';'] 500, .add ['B', ';'] 500, .remove ['A', ';']]
        = [⟨['B', ';'], 500, 0⟩] ∧
      applyOps [] [.add ['A', ';'] 500, .add ['B', ';'] 500, .remove ['A', ';'],
        .remove ['B', ';']] = [] :=
  removal_after_merge ['A', ';'] ['B', ';'] 500 (by decide) (by decide) (by decide)

/-- C5, the claim as stated fails: the entry `("A;", 2000000000000, 0)` has an unset last
fired time, the tick at the clock value `1700000000000` passes its guard, and the tick does
not treat the entry as due: slot 2 stays `0` and nothing is sent. -/
theorem unset_entry_not_due :
    dueSpec 1700000000000 ⟨['A', ';'], 2000000000000, 0⟩ ∧
      guard ⟨[], [⟨['A', ';'], 2000000000000, 0⟩], true, false, true, 1699999999999, 33⟩
        1700000000000 = true ∧
      isDue 1700000000000 ⟨['A', ';'], 2000000000000, 0⟩ = false ∧
      runUpdate ⟨[], [⟨['A', ';'], 2000000000000, 0⟩], true, false, true, 1699999999999, 33⟩
          1700000000000
        = (⟨[], [⟨['A', ';'], 2000000000000, 0⟩], true, false, true, 1700000000000, 33⟩, []) := by
  refine ⟨Or.inl rfl, by decide, by decide, by decide⟩

/-- C5, amended. A tick at time `t` that passes its guard treats an entry as due exactly
when `lastFired + interval ≤ t`, that is `t - lastFired ≥ interval` with an unset time
being the number `0`: every due entry gets `t` as its last fired time and every other entry
is unchanged. An entry with an unset last fired time is due exactly when `interval ≤ t`. -/
theorem due_entry_selection (s : State) (t : Int) (hg : guard s t = true) :
    (runUpdate s t).1.recurringCommands =
        s.recurringCommands.map (fun e => if isDue t e then { e with lastFired := t } else e) ∧
      (∀ e : Entry, isDue t e = true ↔ t - e.lastFired ≥ e.interval) ∧
      (∀ e : Entry, e.lastFired = 0 → (isDue t e = true ↔ e.interval ≤ t)) := by
  refine ⟨?_, fun e => ?_, fun e h0 => ?_⟩
  · unfold runUpdate
    rw [if_pos hg, tickBody_eq]
    split <;> rfl
  · simp only [isDue, decide_eq_true_eq]
    omega
  · simp only [isDue, decide_eq_true_eq, h0]
    omega

/-- C5 amended, at a running state with the entries `("A;", 10, 0)` and `("B;", 3, 0)` and
the tick time `5`: only the second entry is fired. -/
theorem due_entry_selection_witness :
    (runUpdate ⟨[], [⟨['A', ';'], 10, 0⟩, ⟨['B', ';'], 3, 0⟩], true, false, true, 0, 1⟩
        5).1.recurringCommands
      = [⟨['A', ';'], 10, 0⟩, ⟨['B', ';'], 3, 5⟩] :=
  (due_entry_selection ⟨[], [⟨['A', ';'], 10, 0⟩, ⟨['B', ';'], 3, 0⟩], true, false, true, 0, 1⟩
    5 (by decide)).1

/-- C6. Tick guard: the tick runs its body exactly when the scheduler is running, no send
is being attempted, and a response has been received or more than 3000 ms have passed since
the last send; the body sets the last send time to the tick time; otherwise the tick
returns the state as it was and makes no transport call. -/
theorem tick_guard (s : State) (now : Int) :
    runUpdate s now =
        (if s.running = true ∧ s.attemptingSend = false ∧
            (s.udpateRecieved = true ∨ now - s.lastSendTime > 3000)
          then tickBody s now else (s, [])) ∧
      (tickBody s now).1.lastSendTime = now ∧
      (tickBody s now).1.attemptingSend = false := by
  refine ⟨?_, ?_, ?_⟩
  · unfold runUpdate guard
    by_cases h : s.running = true ∧ s.attemptingSend = false ∧
        (s.udpateRecieved = true ∨ now - s.lastSendTime > 3000)
    · rw [if_pos h]
      obtain ⟨h1, h2, h3⟩ := h
      have : (!s.attemptingSend && s.running &&
          (s.udpateRecieved || decide (now - s.lastSendTime > 3000))) = true := by
        simp only [h1, h2, Bool.not_false, Bool.and_self, Bool.true_and, Bool.or_eq_true,
          decide_eq_true_eq]
        exact h3
      rw [if_pos this]
    · rw [if_neg h]
      have : ¬ (!s.attemptingSend && s.running &&
          (s.udpateRecieved || decide (now - s.lastSendTime > 3000))) = true := by
        intro q
        apply h
        simp only [Bool.and_eq_true, Bool.not_eq_true', Bool.or_eq_true,
          decide_eq_true_eq] at q
        exact ⟨q.1.2, q.1.1, q.2⟩
      rw [if_neg this]
  · rw [tickBody_eq]
    split <;> rfl
  · rw [tickBody_eq]
    split <;> rfl

/-- C7, the claim as stated fails: with the queue `"Q;"` and the entries
`("A;", 2000000000000, 0)` and `("B;", 1000, 0)`, both with an unset last fired time and so
both due in the sense of the specification, the tick at the clock value `1700000000000`
passes its guard and sends the batch `"Q;B;"`, not `"Q;A;B;"`. -/
theorem spec_due_batch_differs :
    guard ⟨['Q', ';'], [⟨['A', ';'], 2000000000000, 0⟩, ⟨['B', ';'], 1000, 0⟩], true, false,
        true, 1699999999999, 33⟩ 1700000000000 = true ∧
      batchDueSpec ⟨['Q', ';'], [⟨['A', ';'], 2000000000000, 0⟩, ⟨['B', ';'], 1000, 0⟩], true,
        false, true, 1699999999999, 33⟩ 1700000000000 = ['Q', ';', 'A', ';', 'B', ';'] ∧
      (assembleBatch ⟨['Q', ';'], [⟨['A', ';'], 2000000000000, 0⟩, ⟨['B', ';'], 1000, 0⟩], true,
        false, true, 1699999999999, 33⟩ 1700000000000).1 = ['Q', ';', 'B', ';'] ∧
      (runUpdate ⟨['Q', ';'], [⟨['A', ';'], 2000000000000, 0⟩, ⟨['B', ';'], 1000, 0⟩], true,
        false, true, 1699999999999, 33⟩ 1700000000000).2 = [['/', '_', '/', 'Q', ';', 'B', ';']] := by
  decide

/-- C7, amended. Batch assembly: in a tick at time `t` that passes the guard, the string
assembled by lines 169-182 is the one-off queue followed by the texts of the entries that
pass the due test of the tick, `lastFired + interval ≤ t` with `0` for an unset time, in
registry order; the tick sends that string when it is not empty; and the entries after the
tick have the texts and intervals of the entries before it, one for one. -/
theorem batch_assembly (s : State) (t : Int) (hg : guard s t = true) :
    (assembleBatch s t).1
        = s.oneOffCommands ++ ((s.recurringCommands.filter (isDue t)).map Entry.text).flatten ∧
      (runUpdate s t).2
        = (if (assembleBatch s t).1 ≠ [] then [requestUrl (assembleBatch s t).1] else []) ∧
      (runUpdate s t).1.recurringCommands.map (fun e => (e.text, e.interval))
        = s.recurringCommands.map (fun e => (e.text, e.interval)) ∧
      (runUpdate s t).1.recurringCommands.length = s.recurringCommands.length := by
  have hrc : (runUpdate s t).1.recurringCommands =
      s.recurringCommands.map (fun e => if isDue t e then { e with lastFired := t } else e) := by
    unfold runUpdate
    rw [if_pos hg, tickBody_eq]
    split <;> rfl
  refine ⟨assembleBatch_fst s t, ?_, ?_, ?_⟩
  · unfold runUpdate
    rw [if_pos hg, tickBody_eq, assembleBatch_fst]
    split <;> rfl
  · rw [hrc, List.map_map]
    apply List.map_congr_left
    intro e _
    simp only [Function.comp]
    split <;> rfl
  · rw [hrc, List.length_map]

/-- C7, at a running state with the queue `"Q;"` and the entries `("A;", 10, 0)`,
`("B;", 3, 0)`, `("C;", 2, 1)` and the tick time `5`: the batch is `"Q;B;C;"`. -/
theorem batch_assembly_witness :
    (assembleBatch ⟨['Q', ';'], [⟨['A', ';'], 10, 0⟩, ⟨['B', ';'], 3, 0⟩, ⟨['C', ';'], 2, 1⟩],
        true, false, true, 0, 1⟩ 5).1 = ['Q', ';', 'B', ';', 'C', ';'] :=
  (batch_assembly ⟨['Q', ';'], [⟨['A', ';'], 10, 0⟩, ⟨['B', ';'], 3, 0⟩, ⟨['C', ';'], 2, 1⟩],
    true, false, true, 0, 1⟩ 5 (by decide)).1

/-- C8. A non-empty batch is sent exactly once: a tick at time `t` that passes the guard
and whose batch is not empty makes exactly one transport call, for the URL `"/_/"` followed
by the batch, and leaves the one-off queue empty, the response flag false, the sending
flag false and the last send time equal to `t`. -/
theorem nonempty_batch_sent_once (s : State) (t : Int) (hg : guard s t = true)
    (hb : batchSpec s t ≠ []) :
    (runUpdate s t).2 = [requestUrl (batchSpec s t)] ∧
      (runUpdate s t).1.oneOffCommands = [] ∧
      (runUpdate s t).1.udpateRecieved = false ∧
      (runUpdate s t).1.attemptingSend = false ∧
      (runUpdate s t).1.lastSendTime = t := by
  unfold runUpdate
  rw [if_pos hg, tickBody_eq, if_pos hb]
  exact ⟨rfl, rfl, rfl, rfl, rfl⟩

/-- C8, at a running state with the queue `"Q;"`, the entry `("B;", 3, 0)` and the tick
time `5`: the one call is for `"/_/Q;B;"`. -/
theorem nonempty_batch_sent_once_witness :
    (runUpdate ⟨['Q', ';'], [⟨['B', ';'], 3, 0⟩], true, false, true, 0, 1⟩ 5).2
      = [['/', '_', '/', 'Q', ';', 'B', ';']] :=
  (nonempty_batch_sent_once ⟨['Q', ';'], [⟨['B', ';'], 3, 0⟩], true, false, true, 0, 1⟩ 5
    (by decide) (by decide)).1

/-- C9. Empty batch, no send: when the one-off queue is empty and no entry satisfies the
due test at time `t`, a tick at time `t` makes no transport call and leaves the response
flag, the one-off queue and the recurring registry as they were. -/
theorem empty_batch_no_send (s : State) (t : Int) (hq : s.oneOffCommands = [])
    (hd : ∀ e ∈ s.recurringCommands, isDue t e = false) :
    (runUpdate s t).2 = [] ∧
      (runUpdate s t).1.udpateRecieved = s.udpateRecieved ∧
      (runUpdate s t).1.oneOffCommands = s.oneOffCommands ∧
      (runUpdate s t).1.recurringCommands = s.recurringCommands := by
  have hb : batchSpec s t = [] := by
    simp [batchSpec, hq, filter_due_of_none_due t _ hd]
  unfold runUpdate
  split
  · rw [tickBody_eq, if_neg (by simp [hb]), map_fire_of_none_due t _ hd]
    exact ⟨rfl, rfl, rfl, rfl⟩
  · exact ⟨rfl, rfl, rfl, rfl⟩

/-- C9, at a running state with an empty queue, the entry `("A;", 10, 3)` and the tick
time `5`: the tick passes its guard and sends nothing. -/
theorem empty_batch_no_send_witness :
    guard ⟨[], [⟨['A', ';'], 10, 3⟩], true, false, true, 3, 1⟩ 5 = true ∧
      (runUpdate ⟨[], [⟨['A', ';'], 10, 3⟩], true, false, true, 3, 1⟩ 5).2 = [] :=
  ⟨by decide,
    (empty_batch_no_send ⟨[], [⟨['A', ';'], 10, 3⟩], true, false, true, 3, 1⟩ 5 rfl
      (by decide)).1⟩

/-- C10. At most one request in flight: when a tick at time `t0` makes a transport call,
then whatever sequence of ticks at times `t` with `t0 ≤ t ≤ t0 + 3000`, `sendCommand`,
`addRecurringMessage` and `removeRecurringMessage` calls follows (no response, no stop or
start), none of these events makes a transport call. -/
theorem at_most_one_in_flight (s : State) (t0 : Int) (hsend : (runUpdate s t0).2 ≠ [])
    (evs : List Event) (hwin : ∀ t, Event.tick t ∈ evs → t0 ≤ t ∧ t ≤ t0 + 3000) :
    (run (runUpdate s t0).1 evs).2 = [] := by
  have hs := runUpdate_sent s t0 hsend
  exact run_quiet t0 evs _ hs.1 hs.2 (fun t q => (hwin t q).2)

/-- C10, at a running state with the queue `"Q;"` and the sending tick at time `5`: the
ticks at `6`, `3005` and `3005` between further queueing calls send nothing. -/
theorem at_most_one_in_flight_witness :
    (runUpdate ⟨['Q', ';'], [], true, false, true, 0, 1⟩ 5).2 = [['/', '_', '/', 'Q', ';']] ∧
      (run (runUpdate ⟨['Q', ';'], [], true, false, true, 0, 1⟩ 5).1
        [.tick 6, .sendCommand ['X', ';'], .addRecurringMessage ['A', ';'] 1, .tick 3005,
          .removeRecurringMessage ['A', ';'], .tick 3005]).2 = [] :=
  ⟨by decide,
    at_most_one_in_flight ⟨['Q', ';'], [], true, false, true, 0, 1⟩ 5 (by decide)
      [.tick 6, .sendCommand ['X', ';'], .addRecurringMessage ['A', ';'] 1, .tick 3005,
        .removeRecurringMessage ['A', ';'], .tick 3005]
      (by
        intro t ht
        simp only [List.mem_cons, Event.tick.injEq, reduceCtorEq, false_or, or_false,
          List.mem_nil_iff, List.not_mem_nil] at ht
        rcases ht with rfl | rfl | rfl <;> decide)⟩

/-- C11, the claim as stated fails: the tick at `1700000000000` sends the queue `"Q;"`
and leaves the response flag false; no response is handled; the tick 3001 ms later passes
its guard, finds an empty queue and no entry, and makes no transport call. -/
theorem stale_tick_with_empty_batch :
    runUpdate ⟨['Q', ';'], [], true, false, true, 1699999999999, 33⟩ 1700000000000
        = (⟨[], [], true, false, false, 1700000000000, 33⟩, [['/', '_', '/', 'Q', ';']]) ∧
      guard ⟨[], [], true, false, false, 1700000000000, 33⟩ 1700000003001 = true ∧
      (runUpdate ⟨[], [], true, false, false, 1700000000000, 33⟩ 1700000003001).2 = [] := by
  decide

/-- C11, amended. Staleness override: in a running state whose last send was at `t0`, a
tick at a time `t` with `t - t0 > 3000` passes the guard whatever the response flag is, sets
the last send time to `t`, and makes a transport call exactly when its batch (the one-off
queue followed by the texts of the due entries) is not empty. -/
theorem staleness_override (s : State) (t0 t : Int) (hr : s.running = true)
    (hs : s.attemptingSend = false) (hl : s.lastSendTime = t0) (ht : t - t0 > 3000) :
    guard s t = true ∧
      (runUpdate s t).2 = (if batchSpec s t ≠ [] then [requestUrl (batchSpec s t)] else []) ∧
      (runUpdate s t).1.lastSendTime = t := by
  have hg : guard s t = true := by
    unfold guard
    have : t - s.lastSendTime > 3000 := by rw [hl]; exact ht
    simp [hr, hs, this]
  refine ⟨hg, ?_, ?_⟩
  · unfold runUpdate
    rw [if_pos hg, tickBody_eq]
    split <;> rfl
  · unfold runUpdate
    rw [if_pos hg, tickBody_eq]
    split <;> rfl

/-- C11 amended, at a running state with the entry `("A;", 1000, 5)`, last send at `5`, no
response received, and the tick time `3006`: the tick sends `"/_/A;"`. -/
theorem staleness_override_witness :
    (runUpdate ⟨[], [⟨['A', ';'], 1000, 5⟩], true, false, false, 5, 33⟩ 3006).2
      = [['/', '_', '/', 'A', ';']] :=
  (staleness_override ⟨[], [⟨['A', ';'], 1000, 5⟩], true, false, false, 5, 33⟩ 5 3006
    rfl rfl rfl (by decide)).2.1

/-- C15. `stop()` does not stop: on the running state with the queue `"Q;"`, `stop()`
throws at the assignment to the getter-only `running`, the getter still reports true, and
the tick after it sends `"/_/Q;"`. -/
theorem stop_leaves_running :
    stop ⟨['Q', ';'], [], true, false, true, 0, 33⟩
        = .error "TypeError: Cannot set property running which has only a getter" ∧
      runningAfterStop ⟨['Q', ';'], [], true, false, true, 0, 33⟩ = true ∧
      (runUpdate ⟨['Q', ';'], [], true, false, true, 0, 33⟩ 5).2
        = [['/', '_', '/', 'Q', ';']] :=
  ⟨rfl, rfl, by decide⟩

/-- C16, the claim as stated fails: for the completed exchange with the response text
`"ok"` the one notification carries the command collection, not the response text. -/
theorem notification_is_not_raw_text :
    (handleResponse ⟨[], [], false, false, false, 0, 33⟩ 4 ['o', 'k'] 5).notified
        = [Payload.immCommandCollection ['o', 'k']] ∧
      (handleResponse ⟨[], [], false, false, false, 0, 33⟩ 4 ['o', 'k'] 5).notified
        ≠ [Payload.responseText ['o', 'k']] := by
  decide

/-- C16, amended. Response handler: an exchange that is not complete changes nothing and
notifies no one; a completed exchange with response text `r` delivers exactly one
notification when `r` is not empty, carrying the command collection that `r` was parsed
into, and none when `r` is empty; with `s1` the state with the response flag set and
everything else as before, the handler ends in `s1` with no transport call, or in what a
tick makes of `s1`; for an empty `r` it ends in `s1`. -/
theorem response_handler (s : State) (readyState : Nat) (r : Text) (time : Int) :
    (readyState ≠ 4 → handleResponse s readyState r time = ⟨s, [], []⟩) ∧
      (readyState = 4 →
        (handleResponse s readyState r time).notified
            = (if r ≠ [] then [Payload.immCommandCollection r] else []) ∧
          (((handleResponse s readyState r time).state = { s with udpateRecieved := true } ∧
              (handleResponse s readyState r time).calls = []) ∨
            ((handleResponse s readyState r time).state,
                (handleResponse s readyState r time).calls)
              = runUpdate { s with udpateRecieved := true } time) ∧
          (r = [] →
            (handleResponse s readyState r time).state = { s with udpateRecieved := true } ∧
              (handleResponse s readyState r time).calls = [])) := by
  refine ⟨fun h => ?_, fun h => ?_⟩
  · simp [handleResponse, h]
  · by_cases hr : r = []
    · simp [handleResponse, h, hr]
    · simp [handleResponse, h, hr]

/-- C17. The catch-up tick is not conditional: on a running state that sent at `1000` and
has `"Q;"` queued since, with a tick period of 33 ms, the response `"ok"` handled at `1001`
makes the handler run the tick, which sends `"/_/Q;"`. -/
theorem catch_up_tick_unconditional :
    (handleResponse ⟨['Q', ';'], [], true, false, false, 1000, 33⟩ 4 ['o', 'k'] 1001).calls
        = [['/', '_', '/', 'Q', ';']] ∧
      (1001 : Int) - 1000 ≤ 33 := by
  decide

/-- C19. Bank encoders: `getBank n` throws `"Invalid bank number"` exactly when `n < 1` or
`n > 20` and otherwise returns `"BankList "`, the decimal digits of `n` and `"\r"`;
`getUserBank n` throws exactly when `n < 1` or `n > 6` and otherwise returns the command
for bank `n + 20`; the banks of `getUserBank` are exactly 21 to 26, and `getBank` rejects
each of them. -/
theorem bank_encoders (n : Int) :
    (getBank n = .error "Invalid bank number" ↔ n < 1 ∨ n > 20) ∧
      (¬ (n < 1 ∨ n > 20) →
        getBank n = .ok ("BankList ".toList ++ decimal n ++ ['\r'])) ∧
      (getUserBank n = .error "Invalid bank number" ↔ n < 1 ∨ n > 6) ∧
      (¬ (n < 1 ∨ n > 6) →
        getUserBank n = .ok ("BankList ".toList ++ decimal (n + 20) ++ ['\r']) ∧
          21 ≤ n + 20 ∧ n + 20 ≤ 26 ∧
          getBank (n + 20) = .error "Invalid bank number") ∧
      (∀ k : Int, 21 ≤ k → k ≤ 26 → getUserBank (k - 20) = .ok (sendBankCommand k)) := by
  refine ⟨?_, ?_, ?_, ?_, ?_⟩
  · unfold getBank
    by_cases h : n < 1 ∨ n > 20
    · simp [h]
    · simp [h]
  · intro h
    simp [getBank, h, sendBankCommand]
  · unfold getUserBank
    by_cases h : n < 1 ∨ n > 6
    · simp [h]
    · simp [h]
  · intro h
    have h1 : ¬ n < 1 := fun q => h (Or.inl q)
    have h2 : ¬ n > 6 := fun q => h (Or.inr q)
    refine ⟨by simp [getUserBank, h, sendBankCommand], by omega, by omega, ?_⟩
    have : n + 20 < 1 ∨ n + 20 > 20 := Or.inr (by omega)
    rw [getBank, if_pos this]
  · intro k h1 h2
    have : ¬ (k - 20 < 1 ∨ k - 20 > 6) := by omega
    simp [getUserBank, this]

/-- C20. Add-then-remove round trip: on a registry reached from the empty one by
`addRecurringMessage` and `removeRecurringMessage` calls, for a non-empty command `c` that
occurs in no entry of an interval other than `d`, `addRecurringMessage(c, d)` followed by
`removeRecurringMessage(c)` gives back the registry with the last fired time of the entry
of interval `d` set to unset; the texts and intervals are as before, entry by entry. -/
theorem add_remove_round_trip (ops : List RegOp) (c : Text) (d : Int) (hc : c ≠ [])
    (hno : ∀ e ∈ applyOps [] ops, e.interval ≠ d → indexOf c e.text = none) :
    applyOps [] (ops ++ [.add c d, .remove c])
        = (applyOps [] ops).map
            (fun e => if e.interval = d then { e with lastFired := 0 } else e) ∧
      (applyOps [] (ops ++ [.add c d, .remove c])).map (fun e => (e.text, e.interval))
        = (applyOps [] ops).map (fun e => (e.text, e.interval)) := by
  have hrun : applyOps [] (ops ++ [.add c d, .remove c])
      = removeLoop c (addLoop c d (applyOps [] ops)) := by
    simp [applyOps, List.foldl_append, RegOp.apply, addRecurringMessage,
      removeRecurringMessage, hc]
  have hrt := removeLoop_addLoop c d (applyOps [] ops)
    (applyOps_nodup ops [] (by simp)) (applyOps_text_ne_nil ops [] (by simp)) hno
  rw [hrun, hrt]
  refine ⟨rfl, ?_⟩
  rw [List.map_map]
  apply List.map_congr_left
  intro e _
  simp only [Function.comp]
  split <;> rfl

/-- C20, at the registry `[("A;", 500), ("B;", 1000)]` with `c = "C;"` and `d = 500`:
adding and removing `"C;"` gives the registry back. -/
theorem add_remove_round_trip_witness :
    applyOps [] ([.add ['A', ';'] 500, .add ['B', ';'] 1000]
        ++ [.add ['C', ';'] 500, .remove ['C', ';']])
      = (applyOps [] [.add ['A', ';'] 500, .add ['B', ';'] 1000]).map
          (fun e => if e.interval = 500 then { e with lastFired := 0 } else e) :=
  (add_remove_round_trip [.add ['A', ';'] 500, .add ['B', ';'] 1000] ['C', ';'] 500
    (by decide) (by decide)).1

/-- C12, the claim as stated fails: `addRecurringMessage("A;", 2000000000000)` creates the
entry `("A;", 2000000000000, 0)`; a running scheduler whose tick finds this entry in its
registry passes the guard at the clock value `1700000000000` and sends nothing, so the
text is not in the batch of the first guard-passing tick. -/
theorem first_tick_misses_long_interval :
    addRecurringMessage ['A', ';'] 2000000000000 [] = [⟨['A', ';'], 2000000000000, 0⟩] ∧
      (0 : Int) < 2000000000000 ∧
      guard ⟨[], [⟨['A', ';'], 2000000000000, 0⟩], true, false, true, 1699999999999, 33⟩
        1700000000000 = true ∧
      (runUpdate ⟨[], [⟨['A', ';'], 2000000000000, 0⟩], true, false, true, 1699999999999, 33⟩
        1700000000000).2 = [] := by
  decide

/-- C12, amended. Firing schedule of an entry of interval `d`. `addRecurringMessage(c, d)`
with a non-empty `c` leaves, in the array it works on, an entry of interval `d` with an
unset last fired time and a text that starts with `c`. When the registry the tick reads
holds such an entry `e0` (unset, text not empty): after any ticks that fail their guard or
come at a clock value below `d` (`ts1`), a tick at `t1` that passes its guard with `d ≤ t1`
sends a batch with the text of `e0` in it and stamps the entry with `t1`. After any further
ticks that fail their guard or come before `t1 + d` (`ts2`), the entry is still the stamped
one, the batch of a tick at a time `t < t1 + d` has no part from it, and a tick at a time
`t ≥ t1 + d` that passes its guard sends a batch with its text in it. -/
theorem due_entry_firing_schedule (s1 : State) (d : Int) (e0 : Entry)
    (hb : bucket d s1.recurringCommands = some e0) (h0 : e0.lastFired = 0)
    (hne : e0.text ≠ [])
    (ts1 : List Int) (t1 : Int) (ts2 : List Int) (t : Int) (s2 s3 s4 : State)
    (h2 : s2 = (runTicks s1 ts1).1)
    (h3 : s3 = (runUpdate s2 t1).1)
    (h4 : s4 = (runTicks s3 ts2).1) :
    (∀ (c : Text) (rc : List Entry), c ≠ [] →
        ∃ old : Text, bucket d (addRecurringMessage c d rc) = some ⟨c ++ old, d, 0⟩) ∧
      (QuietTicks d e0 s1 ts1 = true → guard s2 t1 = true → d ≤ t1 →
        Includes s2 t1 e0 ∧
        bucket d s3.recurringCommands = some { e0 with lastFired := t1 } ∧
        (QuietTicks d { e0 with lastFired := t1 } s3 ts2 = true →
          bucket d s4.recurringCommands = some { e0 with lastFired := t1 } ∧
          (t < t1 + d → Excludes s4 t { e0 with lastFired := t1 }) ∧
          (t1 + d ≤ t → guard s4 t = true →
            Includes s4 t { e0 with lastFired := t1 }))) := by
  refine ⟨fun c rc hc => ?_, ?_⟩
  · obtain ⟨old, hold⟩ := bucket_addLoop_eq c d rc
    exact ⟨old, by simp only [addRecurringMessage, if_pos hc]; exact hold⟩
  intro hu1 hg1 hd1
  have hb2 : bucket d s2.recurringCommands = some e0 := by
    rw [h2]
    exact runTicks_quiet d e0 ts1 s1 hb hu1
  have hfire := tick_includes d e0 s2 t1 hb2 hg1 (by rw [h0]; omega) hne
  have hb3 : bucket d s3.recurringCommands = some { e0 with lastFired := t1 } := by
    rw [h3]
    exact hfire.2
  refine ⟨hfire.1, hb3, ?_⟩
  intro hu2
  have hb4 : bucket d s4.recurringCommands = some { e0 with lastFired := t1 } := by
    rw [h4]
    exact runTicks_quiet d _ ts2 s3 hb3 hu2
  refine ⟨hb4, fun ht => ?_, fun ht hg => ?_⟩
  · exact tick_excludes d { e0 with lastFired := t1 } s4 t hb4 ht
  · exact (tick_includes d { e0 with lastFired := t1 } s4 t hb4 hg ht hne).1

/-- C12 amended, at a running scheduler whose tick reads the queue `"Q;"` and the entry
`("A;", 1000, 0)`: the tick at `500` sends the queue and leaves the entry out, the tick at
`5000` sends `"/_/A;"`, and after the tick at `5500`, which fails its guard, the batch
assembled at `5999` has no part from the entry. -/
theorem due_entry_firing_schedule_witness :
    Includes ⟨[], [⟨['A', ';'], 1000, 0⟩], true, false, false, 500, 33⟩ 5000
        ⟨['A', ';'], 1000, 0⟩ ∧
      Excludes ⟨[], [⟨['A', ';'], 1000, 5000⟩], true, false, false, 5000, 33⟩ 5999
        ⟨['A', ';'], 1000, 5000⟩ := by
  obtain ⟨_, hrest⟩ :=
    due_entry_firing_schedule ⟨['Q', ';'], [⟨['A', ';'], 1000, 0⟩], true, false, true, 0, 33⟩
      1000 ⟨['A', ';'], 1000, 0⟩ (by decide) rfl (by decide)
      [500] 5000 [5500] 5999
      ⟨[], [⟨['A', ';'], 1000, 0⟩], true, false, false, 500, 33⟩
      ⟨[], [⟨['A', ';'], 1000, 5000⟩], true, false, false, 5000, 33⟩
      ⟨[], [⟨['A', ';'], 1000, 5000⟩], true, false, false, 5000, 33⟩
      (by decide) (by decide) (by decide)
  obtain ⟨hinc, _, hlater⟩ := hrest (by decide) (by decide) (by decide)
  exact ⟨hinc, (hlater (by decide)).2.1 (by decide)⟩

/-- C13. A queued command reaches no tick. On the object from the constructor, after
`start()` and `sendCommand("A;")`, the field `#oneOffCommands` holds `"undefinedA;"`, the
queue `g_wwr_req_list` that the tick reads is still empty, and the tick sends nothing. The
same holds when the guard is open, as after a handled response (`udpateRecieved` set).
In general `sendCommand` changes nothing of what a tick sends. -/
theorem queued_command_reaches_no_tick :
    (((Device.construct 33).start 1000).sendCommand ['A', ';']).privOneOffCommands
        = some "undefinedA;".toList ∧
      (((Device.construct 33).start 1000).sendCommand ['A', ';']).g_wwr_req_list = [] ∧
      ((((Device.construct 33).start 1000).sendCommand ['A', ';']).runUpdate 1001).2 = [] ∧
      (Device.sendCommand { (Device.construct 33).start 1000 with udpateRecieved := some true }
        ['A', ';']).guard 1001 = true ∧
      ((Device.sendCommand { (Device.construct 33).start 1000 with udpateRecieved := some true }
        ['A', ';']).runUpdate 1001).2 = [] ∧
      (∀ (dev : Device) (c : Text) (t : Int),
        ((dev.sendCommand c).runUpdate t).2 = (dev.runUpdate t).2) := by
  refine ⟨by decide, by decide, by decide, by decide, by decide, fun dev c t => ?_⟩
  by_cases hc : c = []
  · simp [Device.sendCommand, hc]
  · have hg : (dev.sendCommand c).guard t = dev.guard t := Device.sendCommand_guard dev c t
    have h1 : (dev.sendCommand c).g_wwr_req_list = dev.g_wwr_req_list := by
      simp [Device.sendCommand, hc]
    have h2 : (dev.sendCommand c).g_wwr_req_recur = dev.g_wwr_req_recur := by
      simp [Device.sendCommand, hc]
    rw [Device.runUpdate_calls, Device.runUpdate_calls, hg, h1, h2]

/-- C14. `start()` does not open the guard. On the object from the constructor `start()`
sets `#lastSendTime = now - 1`, `#udpateRecieved`, `#running` and clears `#attemptingSend`,
and leaves the queue and the registry as they are; the guard reads `udpateRecieved` and
`lastSendTime`, which are still unassigned, so it fails at every tick time, and the tick at
`1001` after `start()` at `1000` does nothing. -/
theorem start_leaves_guard_closed :
    (Device.construct 33).start 1000
        = { Device.construct 33 with
              privLastSendTime := some 999, privUdpateRecieved := some true,
              privRunning := true, privAttemptingSend := some false } ∧
      ((Device.construct 33).start 1000).runUpdate 1001
        = ((Device.construct 33).start 1000, []) ∧
      (∀ (m now t : Int), ((Device.construct m).start now).guard t = false) := by
  refine ⟨by decide, by decide, fun m now t => ?_⟩
  simp [Device.construct, Device.start, Device.guard]

/-- C18, the claim as stated fails: with the minimum update time 33,
`addRecurringMessage("A;", 1)` stores the entry with the interval `1`. -/
theorem interval_below_minimum_is_stored :
    (Device.construct 33).g_wwr_timer_freq = 33 ∧
      applyOps [] [.add ['A', ';'] 1] = [⟨['A', ';'], 1, 0⟩] ∧
      (1 : Int) < 33 := by
  decide

/-- C18, amended. After any sequence of `addRecurringMessage` and
`removeRecurringMessage` calls that pass their interval, every entry of the registry has
the interval that one of the `addRecurringMessage` calls was given: no floor is applied,
whatever the minimum update time is. -/
theorem interval_as_given (ops : List RegOp) :
    ∀ e ∈ applyOps [] ops, ∃ c, RegOp.add c e.interval ∈ ops := by
  intro e he
  rcases applyOps_interval_mem ops [] e he with h | h
  · simp at h
  · exact h

/-- C18 amended, at the calls `add("A;", 1)`, `add("B;", 1000)`, `remove("B;")`: the entry
`("A;", 1, 0)` is in the registry and a call `add(_, 1)` is among the calls. -/
theorem interval_as_given_witness :
    (⟨['A', ';'], 1, 0⟩ : Entry) ∈
        applyOps [] [.add ['A', ';'] 1, .add ['B', ';'] 1000, .remove ['B', ';']] ∧
      ∃ c, RegOp.add c 1 ∈
        [RegOp.add ['A', ';'] 1, RegOp.add ['B', ';'] 1000, RegOp.remove ['B', ';']] :=
  ⟨by decide,
    interval_as_given [.add ['A', ';'] 1, .add ['B', ';'] 1000, .remove ['B', ';']]
      ⟨['A', ';'], 1, 0⟩ (by decide)⟩

end AudioRemote
